import Mathlib

/-!
# Recommendation engine: shallow embedding and verification

This file embeds the recommendation engine of the repository
(`src/recommendation/recommendation.service.ts`) and settles the frozen
claims about it.  The service file contains two variants of the class
(an older one and the one the controller uses); where they differ the
variants are embedded side by side in namespaces `V1` (the first chunk
of the file) and `V2` (the second chunk, which also holds
`getRecommendedUsers` and `shuffleWithRelevance`).

Modelling conventions:
* Mongo ObjectIds are `ℕ`; timestamps are `ℤ` milliseconds since epoch;
  `Date.now()` is the explicit parameter `now` carried by `Env`.
* JS numbers in the scorer are `ℝ` (`Math.exp`/`Math.log` become
  `Real.exp`/`Real.log`); list-manipulating components that only compare
  and rescale scores are generic in a `LinearOrderedField`, so they can
  be run on `ℚ` for concrete evaluation.
* The post store is the list `Env.store`; a Mongo `find` with filter,
  sort and limit becomes filter + sort + `take` over that list.  The
  store is assumed reachable (queries are total); the per-query `catch`
  branches that return `[]` on store errors are therefore not taken.
* The result of `buildUserProfile` is abstracted by the oracle
  `Env.profileOf` (its four sub-fetches each default to empty on their
  own errors, so the built profile is just *some* profile; the cache
  reads inside `getUserInterests`/`getFollowingUsers` sit *before* the
  `try` blocks of those helpers, so building the profile throws iff the
  cache client is down, which `buildUserProfile` reproduces).
* The cache client is `CacheState`: an association list of entries plus
  an `ok` flag; when `ok` is `false` every `get`/`set` throws, which
  models cache unavailability.  Only post-list values are modelled; the
  profile sub-signal entries live under disjoint keys and are absorbed
  into the `profileOf` oracle.
-/

/-- A post document with the denormalized fields the engine reads.
`likes` and `comments` are the lengths of the corresponding arrays;
`keywords` models `metadata.keywords` (possibly absent). -/
structure Post where
  id : ℕ
  userId : ℕ
  tribeId : Option ℕ
  createdAt : ℤ
  keywords : Option (List String)
  likes : ℕ
  comments : ℕ
  description : Option String
  base64Image : Option String
  archived : Bool
deriving DecidableEq

/-- The per-user signal bundle assembled by `buildUserProfile`. -/
structure UserProfile where
  interests : List (String × ℝ)
  following : List ℕ
  viewedPosts : List ℕ
  recentInteractions : List (ℕ × ℝ)

/-- `{post, score, reasons}` as produced by the scorer.  The score type is a
parameter so that the purely order-and-rescale components can be evaluated
on `ℚ` while the scorer itself produces `ℝ`. -/
structure PostScore (σ : Type) where
  post : Post
  score : σ
  reasons : List String
deriving DecidableEq

/-- The external world of the posts pipeline: the post store, the clock and
the profile oracle. -/
structure Env where
  store : List Post
  now : ℤ
  profileOf : ℕ → UserProfile

/-- The cache client: entries plus availability.  When `ok` is `false`
every operation throws (cache down). -/
structure CacheState where
  entries : List (String × List Post)
  ok : Bool

def cacheLookup (entries : List (String × List Post)) (k : String) :
    Option (List Post) :=
  (entries.find? (fun kv => kv.1 == k)).map Prod.snd

def cacheGet (c : CacheState) (k : String) :
    Except Unit (Option (List Post)) :=
  if c.ok then .ok (cacheLookup c.entries k) else .error ()

def cacheSet (c : CacheState) (k : String) (v : List Post) :
    Except Unit CacheState :=
  if c.ok then .ok ⟨(k, v) :: c.entries, c.ok⟩ else .error ()

def recKey (userId limit : ℕ) : String :=
  "recommendations:" ++ toString userId ++ ":" ++ toString limit

def fbKey (limit : ℕ) : String :=
  "fallback_posts:" ++ toString limit

def MAX_POSTS_TO_SCORE : ℕ := 200

def dayMs : ℤ := 24 * 60 * 60 * 1000

def emptyProfile : UserProfile := ⟨[], [], [], []⟩

/-- `buildUserProfile`: the four signals are fetched concurrently, each
defaulting to empty on its own failure, abstracted by `Env.profileOf`;
the cache reads in `getUserInterests`/`getFollowingUsers` precede their
`try` blocks, so the build throws iff the cache client is down. -/
def buildUserProfile (env : Env) (c : CacheState) (u : ℕ) :
    Except Unit UserProfile :=
  if c.ok then .ok (env.profileOf u) else .error ()

/-- JS truthiness of an optional string (`undefined` and `""` are falsy). -/
def truthyStr : Option String → Bool
  | none => false
  | some s => s != ""

/-- `userProfile.interests.get(tag) || 0`. -/
def interestOf (prof : UserProfile) (t : String) : ℝ :=
  ((prof.interests.find? (fun kv => kv.1 == t)).map Prod.snd).getD 0

/-- `userProfile.recentInteractions.get(postId) || 0`. -/
def interactionOf (prof : UserProfile) (pid : ℕ) : ℝ :=
  ((prof.recentInteractions.find? (fun kv => kv.1 == pid)).map Prod.snd).getD 0

/-- Descending sort by `createdAt` (`.sort({ createdAt: -1 })`). -/
def sortByCreatedDesc (l : List Post) : List Post :=
  List.insertionSort (fun a b => b.createdAt ≤ a.createdAt) l

/-- In-memory tier-1 ranking key: `likes + comments * 2`. -/
def fallbackEngagement (p : Post) : ℕ := p.likes + p.comments * 2

/-- The in-JS engagement sort of fallback level 1. -/
def sortByEngDesc (l : List Post) : List Post :=
  List.insertionSort (fun a b => fallbackEngagement b ≤ fallbackEngagement a) l

/-- `(a, b) => b.score - a.score`. -/
def sortByScoreDesc {σ : Type} [LinearOrderedField σ] (l : List (PostScore σ)) :
    List (PostScore σ) :=
  List.insertionSort (fun a b => b.score ≤ a.score) l

/-- `metadata.keywords: { $in: interests.keys() }`. -/
def keywordsMatch (prof : UserProfile) (p : Post) : Bool :=
  (p.keywords.getD []).any (fun t => (prof.interests.map Prod.fst).contains t)

/-- The trending escape hatch: created within 3 days and at least 5 likes. -/
def trendingMatch (now : ℤ) (p : Post) : Bool :=
  decide (now - 3 * dayMs ≤ p.createdAt) && decide (5 ≤ p.likes)

/-- `userId ? { userId: { $ne: userId } } : {}` in the fallback levels. -/
def excludeUserB (userId : Option ℕ) (p : Post) : Bool :=
  match userId with
  | some u => p.userId != u
  | none => true

/-- Level 1: non-archived posts of the last 7 days, fetched newest-first up
to `limit * 3`, re-ranked in memory by engagement and cut to `limit * 2`. -/
def getFallbackLevel1 (env : Env) (limit : ℕ) (userId : Option ℕ)
    (excludedPostIds : List ℕ) : List Post :=
  let fetched := (sortByCreatedDesc (env.store.filter (fun p =>
    !p.archived && decide (env.now - 7 * dayMs ≤ p.createdAt)
      && excludeUserB userId p && !(excludedPostIds.contains p.id)))).take
    (limit * 3)
  (sortByEngDesc fetched).take (limit * 2)

/-- Level 2: non-archived posts aged 7 to 30 days, newest first, up to
`limit * 2`. -/
def getFallbackLevel2 (env : Env) (limit : ℕ) (userId : Option ℕ)
    (excludedPostIds : List ℕ) : List Post :=
  (sortByCreatedDesc (env.store.filter (fun p =>
    !p.archived && decide (env.now - 30 * dayMs ≤ p.createdAt)
      && decide (p.createdAt < env.now - 7 * dayMs)
      && excludeUserB userId p && !(excludedPostIds.contains p.id)))).take
    (limit * 2)

/-- Level 3: any non-archived post, newest first, up to `limit`. -/
def getFallbackLevel3 (env : Env) (limit : ℕ) (userId : Option ℕ)
    (excludedPostIds : List ℕ) : List Post :=
  (sortByCreatedDesc (env.store.filter (fun p =>
    !p.archived && excludeUserB userId p
      && !(excludedPostIds.contains p.id)))).take limit

/-- `Set.add`: insert without duplicating, so `length` is the `Set.size`. -/
def insertNew {α : Type} [DecidableEq α] (a : α) (l : List α) : List α :=
  if a ∈ l then l else a :: l

/-- The loop of `basicDiversityFilter`; `remaining` is
`limit - result.length`, `seenAuthors` the distinct authors kept so far. -/
def bdfGo : List Post → ℕ → List ℕ → List Post
  | [], _, _ => []
  | p :: ps, remaining, seenAuthors =>
    if remaining = 0 then []
    else if !(seenAuthors.contains p.userId)
        || decide (seenAuthors.length < 3) then
      p :: bdfGo ps (remaining - 1) (insertNew p.userId seenAuthors)
    else
      bdfGo ps remaining seenAuthors

/-- `basicDiversityFilter(posts, limit)` (identical in both variants). -/
def basicDiversityFilter (posts : List Post) (limit : ℕ) : List Post :=
  bdfGo posts limit []

/-- The three-tier assembly inside `getFallbackPosts`: level 1, then level 2
when still short, then level 3 when still short. -/
def assembleFallback (env : Env) (limit : ℕ) (userId : Option ℕ)
    (excluded : List ℕ) : List Post :=
  let l1 := getFallbackLevel1 env limit userId excluded
  let l2 :=
    if l1.length < limit then
      l1 ++ getFallbackLevel2 env (limit - l1.length) userId excluded
    else l1
  if l2.length < limit then
    l2 ++ getFallbackLevel3 env (limit - l2.length) userId excluded
  else l2

/-- `postMetadata?.keywords?.length` as a JS truthiness test. -/
def hasKeywordsB (p : Post) : Bool :=
  match p.keywords with
  | none => false
  | some ks => ks.length != 0

/-- The total interest mass `Array.from(interests.values()).reduce(+, 0)`. -/
noncomputable def totalInterestMass (prof : UserProfile) : ℝ :=
  (prof.interests.map Prod.snd).sum

/-- Temporal decay: `Math.max(0, Math.exp(-ageInHours / 24) * 10)` with
`ageInHours = (now - createdAt) / (1000 * 60 * 60)`. -/
noncomputable def timeScore (now : ℤ) (p : Post) : ℝ :=
  max 0 (Real.exp (-(((now - p.createdAt : ℤ) : ℝ) / (1000 * 60 * 60)) / 24)
    * 10)

/-- The interest-matching term: for each keyword whose interest weight is
positive, add `(weight / totalInterestMass) * 15`; the whole block is
skipped when the keyword list is absent or empty. -/
noncomputable def interestTerm (prof : UserProfile) (p : Post) : ℝ :=
  match p.keywords with
  | none => 0
  | some ks =>
    if ks.length = 0 then 0
    else ks.foldl (fun s t =>
      let w := interestOf prof t
      if 0 < w then s + w / totalInterestMass prof * 15 else s) 0

/-- `Math.log(1 + likes) * 2 + Math.log(1 + comments) * 3`. -/
noncomputable def engagementScore (p : Post) : ℝ :=
  Real.log (1 + (p.likes : ℝ)) * 2 + Real.log (1 + (p.comments : ℝ)) * 3

/-- `post.description && post.base64Image && post.description.length > 100`. -/
def qualityB (p : Post) : Bool :=
  truthyStr p.description && truthyStr p.base64Image
    && decide (100 < (p.description.getD "").length)

/-- `userProfile.following.some(id => id.equals(post.userId))`. -/
def followedB (prof : UserProfile) (p : Post) : Bool :=
  prof.following.contains p.userId

/-- One step of `scorePostsAdvanced`: the additive score and the diagnostic
reasons recorded above the per-signal thresholds (identical in both
variants of the service). -/
noncomputable def scoreOne (now : ℤ) (prof : UserProfile) (p : Post) :
    PostScore ℝ :=
  let tS := timeScore now p
  let iS := interestTerm prof p
  let fS : ℝ := if followedB prof p then 8 else 0
  let eS := engagementScore p
  let qS : ℝ := if qualityB p then 2 else 0
  let tribeS : ℝ := if p.tribeId.isSome then 1 else 0
  let intS : ℝ := interactionOf prof p.id * 2
  { post := p
    score := tS + iS + fS + eS + qS + tribeS + intS
    reasons :=
      (if 5 < tS then ["recent"] else [])
        ++ (if hasKeywordsB p && decide (5 < iS) then ["interests"] else [])
        ++ (if followedB prof p then ["following"] else [])
        ++ (if 3 < eS then ["popular"] else [])
        ++ (if qualityB p then ["quality"] else []) }

/-- `scorePostsAdvanced(posts, userProfile)`. -/
noncomputable def scorePostsAdvanced (now : ℤ) (posts : List Post)
    (prof : UserProfile) : List (PostScore ℝ) :=
  posts.map (scoreOne now prof)

namespace V1

/-- Eligibility of the first variant's `getCandidatePosts` query: base
filters AND (followed author OR keyword-interest overlap OR trending). -/
def candidateMatch (u : ℕ) (prof : UserProfile) (now : ℤ) (p : Post) :
    Bool :=
  !p.archived && p.userId != u && !(prof.viewedPosts.contains p.id)
    && (prof.following.contains p.userId || keywordsMatch prof p
        || trendingMatch now p)

/-- First variant's candidate query: filter, newest first, cap at 200. -/
def getCandidatePosts (env : Env) (u : ℕ) (prof : UserProfile) : List Post :=
  (sortByCreatedDesc (env.store.filter (candidateMatch u prof env.now))).take
    MAX_POSTS_TO_SCORE

/-- The walk of the first variant's `applyDiversityFilters`: every entry of
the sorted list is pushed (up to `limit`), with the author penalty applied
only once more than 2 distinct authors were seen, and the tribe penalty
only once more than 3 distinct tribes were seen.  (`seenTags` is tracked
but, as in the source, `tagOverlap` is never used.) -/
def adfGo {σ : Type} [LinearOrderedField σ] :
    ℕ → List (PostScore σ) → List ℕ → List ℕ → List String →
      List (PostScore σ)
  | _, [], _, _, _ => []
  | remaining, e :: rest, seenAuthors, seenTribes, seenTags =>
    if remaining = 0 then []
    else
      let aId := e.post.userId
      let tId := e.post.tribeId
      let tags := (e.post.keywords).getD []
      let s1 :=
        if seenAuthors.contains aId && decide (2 < seenAuthors.length) then
          e.score * (7 / 10)
        else e.score
      let s2 :=
        match tId with
        | some t =>
          if seenTribes.contains t && decide (3 < seenTribes.length) then
            s1 * (4 / 5)
          else s1
        | none => s1
      { e with score := s2 } ::
        adfGo (remaining - 1) rest (insertNew aId seenAuthors)
          (match tId with | some t => insertNew t seenTribes
                          | none => seenTribes)
          (tags.foldl (fun acc t => insertNew t acc) seenTags)

/-- First variant's `applyDiversityFilters`: sort by score, walk with
penalties, re-sort. -/
def applyDiversityFilters {σ : Type} [LinearOrderedField σ]
    (scoredPosts : List (PostScore σ)) (limit : ℕ) : List (PostScore σ) :=
  sortByScoreDesc (adfGo limit (sortByScoreDesc scoredPosts) [] [] [])

/-- The state of the argument array after the first variant's
`applyDiversityFilters` returns: the in-place sort ordered it by the
original scores, and the walked prefix carries the penalties. -/
def applyDiversityFiltersArray {σ : Type} [LinearOrderedField σ]
    (scoredPosts : List (PostScore σ)) (limit : ℕ) : List (PostScore σ) :=
  let sorted := sortByScoreDesc scoredPosts
  adfGo limit sorted [] [] [] ++ sorted.drop limit

/-- First variant's `getFallbackPosts`: the `fallback_posts:{limit}` cache
read sits before the `try`, the tiers exclude only the requesting user's
own posts (no viewed-post exclusion in this variant). -/
def getFallbackPosts (env : Env) (c : CacheState) (limit : ℕ)
    (userId : Option ℕ) : Except Unit (List Post × CacheState) := do
  let cached ← cacheGet c (fbKey limit)
  match cached with
  | some l => pure (l, c)
  | none =>
    let diversified :=
      basicDiversityFilter (assembleFallback env limit userId []) limit
    let c' ← cacheSet c (fbKey limit) diversified
    pure (diversified, c')

/-- First variant's `getRecommendedPosts`.  The `catch` branch re-runs the
fallback and caches it under the per-user key (with halved TTL, not
modelled). -/
noncomputable def getRecommendedPosts (env : Env) (c : CacheState)
    (userId : ℕ) (limit : ℕ) : Except Unit (List Post × CacheState) :=
  let key := recKey userId limit
  let body : Except Unit (List Post × CacheState) := do
    let cached ← cacheGet c key
    match cached with
    | some l => pure (l, c)
    | none => do
      let userProfile ← buildUserProfile env c userId
      let candidatePosts := getCandidatePosts env userId userProfile
      if candidatePosts.isEmpty then do
        let fb ← getFallbackPosts env c limit (some userId)
        let c' ← cacheSet fb.2 key fb.1
        pure (fb.1, c')
      else
        let scoredPosts := scorePostsAdvanced env.now candidatePosts
          userProfile
        let diversifiedPosts := applyDiversityFilters scoredPosts limit
        let recommendations := (diversifiedPosts.take limit).map
          PostScore.post
        let c' ← cacheSet c key recommendations
        pure (recommendations, c')
  match body with
  | .ok r => .ok r
  | .error _ => do
    let fb ← getFallbackPosts env c limit (some userId)
    let c' ← cacheSet fb.2 key fb.1
    pure (fb.1, c')

end V1

namespace V2

/-- Eligibility of the second variant's `getCandidatePosts` query: this
variant *excludes* posts of followed users (`userId: { $nin: following }`)
and its `$or` only has the keyword and trending branches. -/
def candidateMatch (u : ℕ) (prof : UserProfile) (now : ℤ) (p : Post) :
    Bool :=
  !p.archived && p.userId != u && !(prof.viewedPosts.contains p.id)
    && !(prof.following.contains p.userId)
    && (keywordsMatch prof p || trendingMatch now p)

/-- Second variant's candidate query: filter, newest first, cap at 200. -/
def getCandidatePosts (env : Env) (u : ℕ) (prof : UserProfile) : List Post :=
  (sortByCreatedDesc (env.store.filter (candidateMatch u prof env.now))).take
    MAX_POSTS_TO_SCORE

/-- The walk of the second variant's `applyDiversityFilters`: the author
penalty fires on any repeated author, the tribe penalty on any repeated
tribe. -/
def adfGo {σ : Type} [LinearOrderedField σ] :
    ℕ → List (PostScore σ) → List ℕ → List ℕ → List String →
      List (PostScore σ)
  | _, [], _, _, _ => []
  | remaining, e :: rest, seenAuthors, seenTribes, seenTags =>
    if remaining = 0 then []
    else
      let aId := e.post.userId
      let tId := e.post.tribeId
      let tags := (e.post.keywords).getD []
      let s1 :=
        if seenAuthors.contains aId then e.score * (7 / 10) else e.score
      let s2 :=
        match tId with
        | some t => if seenTribes.contains t then s1 * (4 / 5) else s1
        | none => s1
      { e with score := s2 } ::
        adfGo (remaining - 1) rest (insertNew aId seenAuthors)
          (match tId with | some t => insertNew t seenTribes
                          | none => seenTribes)
          (tags.foldl (fun acc t => insertNew t acc) seenTags)

/-- Second variant's `applyDiversityFilters`. -/
def applyDiversityFilters {σ : Type} [LinearOrderedField σ]
    (scoredPosts : List (PostScore σ)) (limit : ℕ) : List (PostScore σ) :=
  sortByScoreDesc (adfGo limit (sortByScoreDesc scoredPosts) [] [] [])

/-- The state of the argument array after the second variant's
`applyDiversityFilters` returns. -/
def applyDiversityFiltersArray {σ : Type} [LinearOrderedField σ]
    (scoredPosts : List (PostScore σ)) (limit : ℕ) : List (PostScore σ) :=
  let sorted := sortByScoreDesc scoredPosts
  adfGo limit sorted [] [] [] ++ sorted.drop limit

/-- Second variant's `getFallbackPosts`: the `fallback_posts:{limit}` cache
read sits before the `try`; on a miss it builds the profile of
`userId || ''` (the empty id yields the empty profile) and excludes that
profile's viewed posts in all three tiers. -/
def getFallbackPosts (env : Env) (c : CacheState) (limit : ℕ)
    (userId : Option ℕ) : Except Unit (List Post × CacheState) := do
  let cached ← cacheGet c (fbKey limit)
  match cached with
  | some l => pure (l, c)
  | none =>
    let prof := match userId with
      | some u => env.profileOf u
      | none => emptyProfile
    let diversified :=
      basicDiversityFilter
        (assembleFallback env limit userId prof.viewedPosts) limit
    let c' ← cacheSet c (fbKey limit) diversified
    pure (diversified, c')

/-- Second variant's `getRecommendedPosts` (the one the controller calls).
`markPostsAsViewed` is a fire-and-forget store write and is not modelled. -/
noncomputable def getRecommendedPosts (env : Env) (c : CacheState)
    (userId : ℕ) (limit : ℕ) : Except Unit (List Post × CacheState) :=
  let key := recKey userId limit
  let body : Except Unit (List Post × CacheState) := do
    let cached ← cacheGet c key
    match cached with
    | some l => pure (l, c)
    | none => do
      let userProfile ← buildUserProfile env c userId
      let candidatePosts := getCandidatePosts env userId userProfile
      if candidatePosts.isEmpty then do
        let fb ← getFallbackPosts env c limit (some userId)
        let c' ← cacheSet fb.2 key fb.1
        pure (fb.1, c')
      else
        let scoredPosts := scorePostsAdvanced env.now candidatePosts
          userProfile
        let diversifiedPosts := applyDiversityFilters scoredPosts limit
        let recommendations := (diversifiedPosts.take limit).map
          PostScore.post
        let c' ← cacheSet c key recommendations
        pure (recommendations, c')
  match body with
  | .ok r => .ok r
  | .error _ => do
    let fb ← getFallbackPosts env c limit (some userId)
    let c' ← cacheSet fb.2 key fb.1
    pure (fb.1, c')

end V2

/-- `interestTerm` with the division modelled as partial: `none` marks the
step where a JS division by a zero total interest mass (yielding a
non-finite number) would occur. -/
noncomputable def interestTermChecked (prof : UserProfile) (p : Post) :
    Option ℝ :=
  match p.keywords with
  | none => some 0
  | some ks =>
    if ks.length = 0 then some 0
    else ks.foldl (fun acc t =>
      match acc with
      | none => none
      | some s =>
        let w := interestOf prof t
        if 0 < w then
          if totalInterestMass prof = 0 then none
          else some (s + w / totalInterestMass prof * 15)
        else some s) (some 0)

/-- The full score of `scorePostsAdvanced` with the guarded interest
division; `none` would mark a non-finite score. -/
noncomputable def scoreCheckedOne (now : ℤ) (prof : UserProfile) (p : Post) :
    Option ℝ :=
  (interestTermChecked prof p).map (fun iS =>
    timeScore now p + iS + (if followedB prof p then (8 : ℝ) else 0)
      + engagementScore p + (if qualityB p then (2 : ℝ) else 0)
      + (if p.tribeId.isSome then (1 : ℝ) else 0)
      + interactionOf prof p.id * 2)

/-! ## The people recommender (second chunk only) -/

/-- A user document as read from the user store. -/
structure MUser where
  id : ℕ
  following : List ℕ
deriving DecidableEq

/-- A user summary as returned by `getRecommendedUsers`: the document plus
the common-signal annotations. -/
structure RecUser where
  user : MUser
  commonFollowers : ℚ
  commonFollowersList : List ℕ
deriving DecidableEq

/-- One row of a people-recommender graph query. -/
structure GraphRow where
  userId : ℕ
  commonFollowersCount : ℕ
  commonFollowersList : List ℕ

/-- The graph store, abstracted as the result rows of the three Cypher
queries of `getRecommendedUsers`.  The `WHERE` clauses of those queries
become hypotheses on these oracles in the theorems below. -/
structure GraphStore where
  tier1 : ℕ → ℕ → List GraphRow
  tier2 : ℕ → List ℕ → ℕ → List GraphRow
  followingIds : ℕ → List ℕ

/-- The external world of the people pipeline; `graph = none` models a
graph-store failure (every session query throws). -/
structure UsersEnv where
  users : List MUser
  graph : Option GraphStore

abbrev UserCache : Type := List (String × List RecUser)

def userCacheLookup (c : UserCache) (k : String) : Option (List RecUser) :=
  (c.find? (fun kv => kv.1 == k)).map Prod.snd

def userRecKey (userId limit : ℕ) : String :=
  "user_recommendations:" ++ toString userId ++ ":" ++ toString limit

/-- The running-subtraction `findIndex` of `shuffleWithRelevance`:
`rand -= weight; return rand <= 0`.  `none` is JS `findIndex` returning
`-1` (which would make the subsequent element access throw). -/
def pickIndex (rand : ℚ) : List ℚ → Option ℕ
  | [] => none
  | w :: ws =>
    if rand - w ≤ 0 then some 0 else (pickIndex (rand - w) ws).map (· + 1)

/-- The sampling loop of `shuffleWithRelevance`: repeatedly draw an index
proportionally to the remaining weights, move that element to the output,
splice it out.  `rnd k` is the `k`-th value of `Math.random()`; the fuel
is the initial length (one element is spliced out per iteration).  A
`none` result is the crash on a failed `findIndex`. -/
def shuffleGo (rnd : ℕ → ℚ) {α : Type} :
    ℕ → ℕ → List (α × ℚ) → Option (List α)
  | _, _, [] => some []
  | 0, _, _ :: _ => none
  | fuel + 1, k, w :: ws =>
    let weighted := w :: ws
    let totalWeight := (weighted.map Prod.snd).sum
    let rand := rnd k * totalWeight
    match pickIndex rand (weighted.map Prod.snd) with
    | none => none
    | some i =>
      match weighted[i]? with
      | none => none
      | some u =>
        (shuffleGo rnd fuel (k + 1) (weighted.eraseIdx i)).map
          (fun r => u.1 :: r)

/-- `shuffleWithRelevance<T extends { commonFollowers: number }>`: the
weight of each element is `commonFollowers + 1`; generic over the element
type through the accessor `cf`. -/
def shuffleWithRelevance {α : Type} (cf : α → ℚ) (rnd : ℕ → ℚ)
    (users : List α) : Option (List α) :=
  shuffleGo rnd users.length 0 (users.map (fun u => (u, cf u + 1)))

/-- The `catch` branch of `getRecommendedUsers`: random users from the
store excluding only the requester, annotated with zero common followers,
shuffled, not cached. -/
def usersCatch (env : UsersEnv) (rnd : ℕ → ℚ) (c : UserCache)
    (userId limit : ℕ) : Option (List RecUser × UserCache) :=
  let fallbackUsers := (env.users.filter (fun x => x.id != userId)).take limit
  let usersWithFollowers := fallbackUsers.map (fun x =>
    ({ user := x, commonFollowers := 0, commonFollowersList := [] } : RecUser))
  (shuffleWithRelevance RecUser.commonFollowers rnd usersWithFollowers).map
    (fun s => (s, c))

/-- The id/row accumulation of the three tiers of `getRecommendedUsers`:
tier 1 (common followers, capped at `floor(limit * 1.5)`), then, while
still short, tier 2 (shared-interest follows, excluding ids already
found) and tier 3 (random store users excluding self, already-found and
already-followed ids). -/
def gatherIds (users : List MUser) (g : GraphStore) (userId limit : ℕ) :
    List ℕ × List GraphRow :=
  let neo4jLimit := 3 * limit / 2
  let rows1 := g.tier1 userId neo4jLimit
  let ids1 := rows1.map GraphRow.userId
  let step2 : List ℕ × List GraphRow :=
    if ids1.length < limit then
      let extra := g.tier2 userId ids1 (limit - ids1.length)
      (ids1 ++ extra.map GraphRow.userId, rows1 ++ extra)
    else (ids1, rows1)
  if step2.1.length < limit then
    let fids := g.followingIds userId
    let randomUsers := (users.filter (fun x =>
      x.id != userId && !(step2.1.contains x.id)
        && !(fids.contains x.id))).take (limit - step2.1.length)
    (step2.1 ++ randomUsers.map MUser.id,
      step2.2 ++ randomUsers.map (fun x => ⟨x.id, 0, []⟩))
  else step2

/-- The `{...user, commonFollowers, commonFollowersList}` annotation from
the accumulated row maps; `Map.set` overriding is modelled by looking up
the *last* matching row. -/
def annotateUser (rows : List GraphRow) (x : MUser) : RecUser :=
  let row := rows.reverse.find? (fun r => r.userId == x.id)
  { user := x
    commonFollowers :=
      (((row.map GraphRow.commonFollowersCount).getD 0 : ℕ) : ℚ)
    commonFollowersList := (row.map GraphRow.commonFollowersList).getD [] }

/-- `getRecommendedUsers(userId, limit)` (second chunk).  A `none` overall
result is an uncaught crash of the catch-branch shuffle. -/
def getRecommendedUsers (env : UsersEnv) (rnd : ℕ → ℚ) (c : UserCache)
    (userId : ℕ) (limit : ℕ) : Option (List RecUser × UserCache) :=
  let key := userRecKey userId limit
  match userCacheLookup c key with
  | some l => some (l, c)
  | none =>
    match env.graph with
    | none => usersCatch env rnd c userId limit
    | some g =>
      let step3 := gatherIds env.users g userId limit
      let recommendedUsers := env.users.filter (fun x =>
        step3.1.contains x.id)
      let usersWithFollowers := recommendedUsers.map (annotateUser step3.2)
      let sorted := List.insertionSort
        (fun a b => b.commonFollowers ≤ a.commonFollowers) usersWithFollowers
      match shuffleWithRelevance RecUser.commonFollowers rnd sorted with
      | some shuffled => some (shuffled, (key, shuffled) :: c)
      | none => usersCatch env rnd c userId limit

/-! ## Frame relation for the diversity filter -/

/-- How one entry of the scored array after `applyDiversityFilters` relates
to the corresponding entry before: post and reasons untouched, score
multiplied by exactly one of `1`, `0.7`, `0.8`, `0.7 * 0.8`. -/
def scoreRel {σ : Type} [LinearOrderedField σ] (e' e : PostScore σ) : Prop :=
  e'.post = e.post ∧ e'.reasons = e.reasons ∧
    (e'.score = e.score ∨ e'.score = e.score * (7 / 10)
      ∨ e'.score = e.score * (4 / 5)
      ∨ e'.score = e.score * (7 / 10) * (4 / 5))

/-! ## Concrete scenario inputs used by counterexamples and witnesses -/

/-- An everywhere-empty profile oracle. -/
def blankProfiles : ℕ → UserProfile := fun _ => emptyProfile

/-- An available cache with no entries. -/
def cacheEmpty : CacheState := ⟨[], true⟩

/-- C1 scenario: a fresh post authored by user 7, not trending, no
keywords. -/
def cexPostA : Post :=
  { id := 100, userId := 7, tribeId := none, createdAt := 1000000
    keywords := none, likes := 0, comments := 0, description := none
    base64Image := none, archived := false }

/-- C1 scenario world: the store holds only `cexPostA`. -/
def cexEnvA : Env := { store := [cexPostA], now := 1000000
                       profileOf := blankProfiles }

/-- The cache state after user 5 requests one recommendation against
`cexEnvA`: the per-user entry plus the shared `fallback_posts:1` entry,
both holding user 7's post. -/
def cexCacheMidA : CacheState :=
  ⟨[(recKey 5 1, [cexPostA]), (fbKey 1, [cexPostA])], true⟩

/-- C2 scenario: user 1 follows user 2 (per the user document). -/
def cexUserOne : MUser := ⟨1, [2]⟩

/-- C2 scenario: the followed user. -/
def cexUserTwo : MUser := ⟨2, []⟩

/-- C2 scenario world: two users, graph store down. -/
def cexUsersEnv : UsersEnv := ⟨[cexUserOne, cexUserTwo], none⟩

/-- A random stream that always draws 0. -/
def rndZero : ℕ → ℚ := fun _ => 0

/-- A random stream that always draws 1/2. -/
def rndHalf : ℕ → ℚ := fun _ => 1 / 2

/-- C2 witness world: an empty graph store that answers every query with
no rows. -/
def witGraph : GraphStore := ⟨fun _ _ => [], fun _ _ _ => [], fun _ => []⟩

/-- C2 witness world: users 1 and 4, healthy empty graph. -/
def witUsersEnv : UsersEnv := ⟨[⟨1, []⟩, ⟨4, []⟩], some witGraph⟩

/-- C3 scenario: an old, unpopular, keywordless post by followed user 2. -/
def cexPostC3 : Post :=
  { id := 50, userId := 2, tribeId := none, createdAt := 0
    keywords := none, likes := 0, comments := 0, description := none
    base64Image := none, archived := false }

/-- C3 scenario: the requester follows user 2 and has no interests. -/
def cexProfC3 : UserProfile := ⟨[], [2], [], []⟩

/-- C3 scenario world: only `cexPostC3` in the store, clock far past its
creation. -/
def cexEnvC3 : Env := ⟨[cexPostC3], 400 * dayMs, fun _ => cexProfC3⟩

/-- C4 scenario: two fresh eligible posts by distinct authors. -/
def cexPostB1 : Post :=
  { id := 11, userId := 3, tribeId := none, createdAt := 900
    keywords := none, likes := 0, comments := 0, description := none
    base64Image := none, archived := false }

/-- C4 scenario: second fresh eligible post. -/
def cexPostB2 : Post :=
  { id := 12, userId := 4, tribeId := none, createdAt := 800
    keywords := none, likes := 0, comments := 0, description := none
    base64Image := none, archived := false }

/-- C4 scenario world. -/
def cexEnvB : Env := ⟨[cexPostB1, cexPostB2], 1000, blankProfiles⟩

/-- C7 scenario: a post appearing in two scored entries. -/
def dupPost : Post :=
  { id := 21, userId := 6, tribeId := none, createdAt := 0
    keywords := none, likes := 0, comments := 0, description := none
    base64Image := none, archived := false }

/-- C7 scenario: first scored entry for `dupPost`. -/
def dupEntryA : PostScore ℚ := ⟨dupPost, 2, []⟩

/-- C7 scenario: second scored entry for the same post. -/
def dupEntryB : PostScore ℚ := ⟨dupPost, 1, []⟩

/-- C6 witness: one interest tag of weight 2. -/
def witProfC6 : UserProfile := ⟨[("a", 2)], [], [], []⟩

/-- C6 witness: a post carrying the matching keyword. -/
def witPostC6 : Post :=
  { id := 61, userId := 9, tribeId := none, createdAt := 0
    keywords := some ["a"], likes := 1, comments := 1, description := none
    base64Image := none, archived := false }

/-- C8 witness: a base post whose like and comment counts get overridden. -/
def witPostC8 : Post :=
  { id := 71, userId := 2, tribeId := none, createdAt := 0
    keywords := none, likes := 0, comments := 0, description := none
    base64Image := none, archived := false }

/-- C9 witness: two annotated users with distinct common-follower counts. -/
def witRecUsers : List RecUser := [⟨⟨2, []⟩, 1, []⟩, ⟨⟨3, []⟩, 0, []⟩]

/-- C7 witness: two scored entries over distinct posts. -/
def witEntryA : PostScore ℚ := ⟨⟨31, 1, none, 0, none, 0, 0, none, none, false⟩, 3, []⟩

/-- C7 witness: second entry, different post id. -/
def witEntryB : PostScore ℚ := ⟨⟨32, 1, none, 0, none, 0, 0, none, none, false⟩, 5, []⟩

/-! # Theorems

General helper lemmas first, then, per claim, the counterexamples,
claim theorems and witnesses. -/

theorem except_bind_ok {ε α β : Type} (a : α) (f : α → Except ε β) :
    (Except.ok a >>= f) = f a := rfl

theorem except_bind_error {ε α β : Type} (e : ε) (f : α → Except ε β) :
    ((Except.error e : Except ε α) >>= f) = Except.error e := rfl

theorem cacheGet_up (entries : List (String × List Post)) (k : String) :
    cacheGet ⟨entries, true⟩ k = .ok (cacheLookup entries k) := rfl

theorem cacheGet_down (entries : List (String × List Post)) (k : String) :
    cacheGet ⟨entries, false⟩ k = .error () := rfl

theorem cacheSet_up (entries : List (String × List Post)) (k : String)
    (v : List Post) :
    cacheSet ⟨entries, true⟩ k v = .ok ⟨(k, v) :: entries, true⟩ := rfl

theorem buildUserProfile_up (env : Env)
    (entries : List (String × List Post)) (u : ℕ) :
    buildUserProfile env ⟨entries, true⟩ u = .ok (env.profileOf u) := rfl

theorem mem_le_sum_nonneg {σ : Type} [LinearOrderedField σ] :
    ∀ {l : List σ}, (∀ x ∈ l, 0 ≤ x) → ∀ {x : σ}, x ∈ l → x ≤ l.sum := by
  intro l
  induction l with
  | nil => intro _ x hx; cases hx
  | cons a t ih =>
    intro h x hx
    rw [List.sum_cons]
    rcases List.mem_cons.mp hx with rfl | hxt
    · have ht : (0 : σ) ≤ t.sum :=
        List.sum_nonneg fun y hy => h y (List.mem_cons_of_mem _ hy)
      linarith
    · have hxs := ih (fun y hy => h y (List.mem_cons_of_mem _ hy)) hxt
      have ha := h a (List.mem_cons_self _ _)
      linarith

theorem contains_false_not_mem {α : Type} [BEq α] [LawfulBEq α]
    {l : List α} {a : α} (h : l.contains a = false) : a ∉ l := by
  simpa using h

theorem contains_true_mem {α : Type} [BEq α] [LawfulBEq α]
    {l : List α} {a : α} (h : l.contains a = true) : a ∈ l := by
  simpa using h

theorem level1_mem {env : Env} {limit : ℕ} {uid : Option ℕ} {excl : List ℕ}
    {p : Post} (h : p ∈ getFallbackLevel1 env limit uid excl) :
    p ∈ env.store ∧ p.archived = false
      ∧ env.now - 7 * dayMs ≤ p.createdAt
      ∧ excludeUserB uid p = true ∧ p.id ∉ excl := by
  rw [getFallbackLevel1] at h
  have h1 := List.take_subset _ _ h
  rw [sortByEngDesc, List.mem_insertionSort] at h1
  have h2 := List.take_subset _ _ h1
  rw [sortByCreatedDesc, List.mem_insertionSort, List.mem_filter] at h2
  obtain ⟨hmem, hcond⟩ := h2
  simp only [Bool.and_eq_true, Bool.not_eq_true', decide_eq_true_eq] at hcond
  exact ⟨hmem, hcond.1.1.1, hcond.1.1.2, hcond.1.2,
    contains_false_not_mem hcond.2⟩

theorem level2_mem {env : Env} {limit : ℕ} {uid : Option ℕ} {excl : List ℕ}
    {p : Post} (h : p ∈ getFallbackLevel2 env limit uid excl) :
    p ∈ env.store ∧ p.archived = false
      ∧ env.now - 30 * dayMs ≤ p.createdAt
      ∧ p.createdAt < env.now - 7 * dayMs
      ∧ excludeUserB uid p = true ∧ p.id ∉ excl := by
  rw [getFallbackLevel2] at h
  have h2 := List.take_subset _ _ h
  rw [sortByCreatedDesc, List.mem_insertionSort, List.mem_filter] at h2
  obtain ⟨hmem, hcond⟩ := h2
  simp only [Bool.and_eq_true, Bool.not_eq_true', decide_eq_true_eq] at hcond
  exact ⟨hmem, hcond.1.1.1.1, hcond.1.1.1.2, hcond.1.1.2, hcond.1.2,
    contains_false_not_mem hcond.2⟩

theorem level3_mem {env : Env} {limit : ℕ} {uid : Option ℕ} {excl : List ℕ}
    {p : Post} (h : p ∈ getFallbackLevel3 env limit uid excl) :
    p ∈ env.store ∧ p.archived = false
      ∧ excludeUserB uid p = true ∧ p.id ∉ excl := by
  rw [getFallbackLevel3] at h
  have h2 := List.take_subset _ _ h
  rw [sortByCreatedDesc, List.mem_insertionSort, List.mem_filter] at h2
  obtain ⟨hmem, hcond⟩ := h2
  simp only [Bool.and_eq_true, Bool.not_eq_true', decide_eq_true_eq] at hcond
  exact ⟨hmem, hcond.1.1, hcond.1.2, contains_false_not_mem hcond.2⟩

theorem excludeUserB_some {u : ℕ} {p : Post}
    (h : excludeUserB (some u) p = true) : p.userId ≠ u := by
  simpa [excludeUserB] using h

theorem assembleFallback_cases {env : Env} {limit : ℕ} {uid : Option ℕ}
    {excl : List ℕ} {p : Post}
    (h : p ∈ assembleFallback env limit uid excl) :
    p ∈ getFallbackLevel1 env limit uid excl
      ∨ (∃ k, p ∈ getFallbackLevel2 env k uid excl)
      ∨ (∃ k, p ∈ getFallbackLevel3 env k uid excl) := by
  rw [assembleFallback] at h
  by_cases h1 : (getFallbackLevel1 env limit uid excl).length < limit
  · simp only [if_pos h1] at h
    by_cases h2 : (getFallbackLevel1 env limit uid excl ++
        getFallbackLevel2 env
          (limit - (getFallbackLevel1 env limit uid excl).length) uid
          excl).length < limit
    · simp only [if_pos h2] at h
      rcases List.mem_append.mp h with h' | h'
      · rcases List.mem_append.mp h' with h'' | h''
        · exact Or.inl h''
        · exact Or.inr (Or.inl ⟨_, h''⟩)
      · exact Or.inr (Or.inr ⟨_, h'⟩)
    · simp only [if_neg h2] at h
      rcases List.mem_append.mp h with h' | h'
      · exact Or.inl h'
      · exact Or.inr (Or.inl ⟨_, h'⟩)
  · simp only [if_neg h1] at h
    exact Or.inl h

theorem assembleFallback_mem {env : Env} {limit : ℕ} {uid : Option ℕ}
    {excl : List ℕ} {p : Post}
    (h : p ∈ assembleFallback env limit uid excl) :
    p ∈ env.store ∧ p.archived = false
      ∧ excludeUserB uid p = true ∧ p.id ∉ excl := by
  rcases assembleFallback_cases h with h' | ⟨k, h'⟩ | ⟨k, h'⟩
  · obtain ⟨a, b, _, c, d⟩ := level1_mem h'
    exact ⟨a, b, c, d⟩
  · obtain ⟨a, b, _, _, c, d⟩ := level2_mem h'
    exact ⟨a, b, c, d⟩
  · exact level3_mem h'

theorem bdfGo_sub :
    ∀ (posts : List Post) (r : ℕ) (seen : List ℕ),
      ∀ q ∈ bdfGo posts r seen, q ∈ posts := by
  intro posts
  induction posts with
  | nil => intro r seen q hq; simp [bdfGo] at hq
  | cons p ps ih =>
    intro r seen q hq
    rw [bdfGo] at hq
    split at hq
    · cases hq
    · split at hq
      · rcases List.mem_cons.mp hq with rfl | hq'
        · exact List.mem_cons_self _ _
        · exact List.mem_cons_of_mem _ (ih _ _ _ hq')
      · exact List.mem_cons_of_mem _ (ih _ _ _ hq)

theorem bdfGo_length_le :
    ∀ (posts : List Post) (r : ℕ) (seen : List ℕ),
      (bdfGo posts r seen).length ≤ r := by
  intro posts
  induction posts with
  | nil => intro r seen; simp [bdfGo]
  | cons p ps ih =>
    intro r seen
    rw [bdfGo]
    split
    · simp
    · next hr =>
      split
      · have := ih (r - 1) (insertNew p.userId seen)
        simp only [List.length_cons]
        omega
      · exact ih r seen

theorem assembleFallback_length_le (env : Env) (limit : ℕ) (uid : Option ℕ)
    (excl : List ℕ) :
    (assembleFallback env limit uid excl).length ≤ 2 * limit := by
  have hl1 : (getFallbackLevel1 env limit uid excl).length ≤ limit * 2 := by
    rw [getFallbackLevel1]
    exact List.length_take_le _ _
  rw [assembleFallback]
  by_cases h1 : (getFallbackLevel1 env limit uid excl).length < limit
  · simp only [if_pos h1]
    have hl2 : (getFallbackLevel2 env
        (limit - (getFallbackLevel1 env limit uid excl).length) uid
        excl).length ≤
          (limit - (getFallbackLevel1 env limit uid excl).length) * 2 := by
      rw [getFallbackLevel2]
      exact List.length_take_le _ _
    by_cases h2 : (getFallbackLevel1 env limit uid excl ++
        getFallbackLevel2 env
          (limit - (getFallbackLevel1 env limit uid excl).length) uid
          excl).length < limit
    · simp only [if_pos h2]
      have hl3 : (getFallbackLevel3 env
          (limit - (getFallbackLevel1 env limit uid excl ++
            getFallbackLevel2 env
              (limit - (getFallbackLevel1 env limit uid excl).length) uid
              excl).length) uid excl).length ≤
            limit - (getFallbackLevel1 env limit uid excl ++
              getFallbackLevel2 env
                (limit - (getFallbackLevel1 env limit uid excl).length) uid
                excl).length := by
        rw [getFallbackLevel3]
        exact List.length_take_le _ _
      simp only [List.length_append] at h2 hl3 ⊢
      omega
    · rw [if_neg h2]
      simp only [List.length_append]
      omega
  · simp only [if_neg h1]
    omega

/-- C4: the claim as written fails: the fallback tiers are consulted in
order and exclude the requester's own and (in the live variant) viewed
posts, but tier 1 contributes up to `2 * limit` posts — not just the
remaining deficit — so at `limit = 1` with two eligible recent posts the
assembled pre-cap list has 2 entries. -/
theorem fallback_assembled_exceeds_limit_cex :
    (assembleFallback cexEnvB 1 (some 9) []).length = 2
      ∧ assembleFallback cexEnvB 1 (some 9) [] = [cexPostB1, cexPostB2]
      ∧ (1 : ℕ) < 2 := by
  refine ⟨?_, ?_, ?_⟩ <;> decide

/-- C4 (amended): the three tiers are consulted in order (tier 1 is a
front segment of the assembled list); each tier excludes the requesting
user's own posts and the excluded (viewed) ids handed to it, and keeps
its date window; tier 1 contributes at most `2 * limit` and the whole
assembled list at most `2 * limit` items before `basicDiversityFilter`
cuts the final result to `limit`. -/
theorem fallback_tiers_properties :
    (∀ (env : Env) (limit u : ℕ) (excluded : List ℕ),
        ∀ p ∈ assembleFallback env limit (some u) excluded,
          p.archived = false ∧ p.userId ≠ u ∧ p.id ∉ excluded)
    ∧ (∀ (env : Env) (limit u : ℕ) (excluded : List ℕ),
        ∀ p ∈ getFallbackLevel1 env limit (some u) excluded,
          p.archived = false ∧ env.now - 7 * dayMs ≤ p.createdAt
            ∧ p.userId ≠ u ∧ p.id ∉ excluded)
    ∧ (∀ (env : Env) (limit u : ℕ) (excluded : List ℕ),
        ∀ p ∈ getFallbackLevel2 env limit (some u) excluded,
          env.now - 30 * dayMs ≤ p.createdAt
            ∧ p.createdAt < env.now - 7 * dayMs)
    ∧ (∀ (env : Env) (limit : ℕ) (uid : Option ℕ) (excluded : List ℕ),
        (assembleFallback env limit uid excluded).length ≤ 2 * limit)
    ∧ (∀ (posts : List Post) (limit : ℕ),
        (basicDiversityFilter posts limit).length ≤ limit)
    ∧ (∀ (env : Env) (limit : ℕ) (uid : Option ℕ) (excluded : List ℕ),
        ∃ rest, assembleFallback env limit uid excluded =
          getFallbackLevel1 env limit uid excluded ++ rest) := by
  refine ⟨?_, ?_, ?_, ?_, ?_, ?_⟩
  · intro env limit u excluded p hp
    obtain ⟨-, hb, hu, hx⟩ := assembleFallback_mem hp
    exact ⟨hb, excludeUserB_some hu, hx⟩
  · intro env limit u excluded p hp
    obtain ⟨-, hb, hw, hu, hx⟩ := level1_mem hp
    exact ⟨hb, hw, excludeUserB_some hu, hx⟩
  · intro env limit u excluded p hp
    obtain ⟨-, -, hw1, hw2, -, -⟩ := level2_mem hp
    exact ⟨hw1, hw2⟩
  · exact assembleFallback_length_le
  · intro posts limit
    exact bdfGo_length_le posts limit []
  · intro env limit uid excluded
    rw [assembleFallback]
    by_cases h1 : (getFallbackLevel1 env limit uid excluded).length < limit
    · simp only [if_pos h1]
      by_cases h2 : (getFallbackLevel1 env limit uid excluded ++
          getFallbackLevel2 env
            (limit - (getFallbackLevel1 env limit uid excluded).length) uid
            excluded).length < limit
      · simp only [if_pos h2]
        exact ⟨_, by rw [List.append_assoc]⟩
      · simp only [if_neg h2]
        exact ⟨_, rfl⟩
    · simp only [if_neg h1]
      exact ⟨[], (List.append_nil _).symm⟩

/-- C4 witness: the first tier-1 post of the concrete scenario satisfies
the exclusion facts. -/
theorem fallback_tiers_properties_wit :
    cexPostB1 ∈ assembleFallback cexEnvB 1 (some 9) []
      ∧ (cexPostB1.archived = false ∧ cexPostB1.userId ≠ 9
          ∧ cexPostB1.id ∉ ([] : List ℕ)) :=
  ⟨by decide, fallback_tiers_properties.1 cexEnvB 1 9 [] cexPostB1 (by decide)⟩

theorem V1candidate_mem {env : Env} {u : ℕ} {prof : UserProfile} {p : Post}
    (h : p ∈ V1.getCandidatePosts env u prof) :
    p.archived = false ∧ p.userId ≠ u ∧ p.id ∉ prof.viewedPosts
      ∧ (p.userId ∈ prof.following ∨ keywordsMatch prof p = true
          ∨ trendingMatch env.now p = true) := by
  rw [V1.getCandidatePosts] at h
  have h2 := List.take_subset _ _ h
  rw [sortByCreatedDesc, List.mem_insertionSort, List.mem_filter] at h2
  obtain ⟨-, hc⟩ := h2
  rw [V1.candidateMatch] at hc
  simp only [Bool.and_eq_true, Bool.or_eq_true, Bool.not_eq_true',
    bne_iff_ne, ne_eq] at hc
  refine ⟨hc.1.1.1, hc.1.1.2, contains_false_not_mem hc.1.2, ?_⟩
  rcases hc.2 with (hf | hk) | ht
  · exact Or.inl (contains_true_mem hf)
  · exact Or.inr (Or.inl hk)
  · exact Or.inr (Or.inr ht)

theorem V2candidate_mem {env : Env} {u : ℕ} {prof : UserProfile} {p : Post}
    (h : p ∈ V2.getCandidatePosts env u prof) :
    p.archived = false ∧ p.userId ≠ u ∧ p.id ∉ prof.viewedPosts
      ∧ p.userId ∉ prof.following
      ∧ (keywordsMatch prof p = true ∨ trendingMatch env.now p = true) := by
  rw [V2.getCandidatePosts] at h
  have h2 := List.take_subset _ _ h
  rw [sortByCreatedDesc, List.mem_insertionSort, List.mem_filter] at h2
  obtain ⟨-, hc⟩ := h2
  rw [V2.candidateMatch] at hc
  simp only [Bool.and_eq_true, Bool.or_eq_true, Bool.not_eq_true',
    bne_iff_ne, ne_eq] at hc
  exact ⟨hc.1.1.1.1, hc.1.1.1.2, contains_false_not_mem hc.1.1.2,
    contains_false_not_mem hc.1.2, hc.2⟩

/-- C3: the claim fails on the second (live) variant: a non-archived,
unviewed post by a *followed* author with no keyword overlap and no
trending match is rejected by its candidate query — that variant filters
followed authors out (`userId: { $nin: following }`) — so the post is
not admitted even though it meets the base filters. -/
theorem candidate_followed_author_excluded_cex :
    cexPostC3.archived = false ∧ cexPostC3.userId ≠ 1
      ∧ cexPostC3.id ∉ cexProfC3.viewedPosts
      ∧ cexPostC3.userId ∈ cexProfC3.following
      ∧ keywordsMatch cexProfC3 cexPostC3 = false
      ∧ trendingMatch cexEnvC3.now cexPostC3 = false
      ∧ V2.candidateMatch 1 cexProfC3 cexEnvC3.now cexPostC3 = false
      ∧ V2.getCandidatePosts cexEnvC3 1 cexProfC3 = []
      ∧ cexPostC3 ∈ cexEnvC3.store := by
  refine ⟨?_, ?_, ?_, ?_, ?_, ?_, ?_, ?_, ?_⟩ <;> decide

/-- C3 (amended): every post admitted by the first variant's
`getCandidatePosts` satisfies the base filters and (followed ∨ keyword ∨
trending), and a followed author's post meeting the base filters is
eligible there; the second variant's pool satisfies the base filters,
author-not-followed, and (keyword ∨ trending) — a followed author's post
is never admitted by it. -/
theorem candidateMatch_eligibility :
    (∀ (env : Env) (u : ℕ) (prof : UserProfile),
        ∀ p ∈ V1.getCandidatePosts env u prof,
          p.archived = false ∧ p.userId ≠ u ∧ p.id ∉ prof.viewedPosts
            ∧ (p.userId ∈ prof.following ∨ keywordsMatch prof p = true
                ∨ trendingMatch env.now p = true))
    ∧ (∀ (env : Env) (u : ℕ) (prof : UserProfile),
        ∀ p ∈ V2.getCandidatePosts env u prof,
          p.archived = false ∧ p.userId ≠ u ∧ p.id ∉ prof.viewedPosts
            ∧ p.userId ∉ prof.following
            ∧ (keywordsMatch prof p = true ∨ trendingMatch env.now p = true))
    ∧ (∀ (u : ℕ) (prof : UserProfile) (now : ℤ) (p : Post),
        p.archived = false → p.userId ≠ u → p.id ∉ prof.viewedPosts →
          p.userId ∈ prof.following →
          V1.candidateMatch u prof now p = true)
    ∧ (∀ (u : ℕ) (prof : UserProfile) (now : ℤ) (p : Post),
        p.userId ∈ prof.following →
          V2.candidateMatch u prof now p = false) := by
  refine ⟨?_, ?_, ?_, ?_⟩
  · intro env u prof p hp
    exact V1candidate_mem hp
  · intro env u prof p hp
    exact V2candidate_mem hp
  · intro u prof now p ha hu hv hf
    rw [V1.candidateMatch]
    simp only [Bool.and_eq_true, Bool.or_eq_true, Bool.not_eq_true',
      bne_iff_ne, ne_eq]
    refine ⟨⟨⟨ha, hu⟩, ?_⟩, Or.inl (Or.inl ?_)⟩
    · simpa using hv
    · simpa using hf
  · intro u prof now p hf
    have hcontains : prof.following.contains p.userId = true := by
      simpa using hf
    rw [V2.candidateMatch, hcontains]
    simp

/-- C3 witness: the first variant's filter admits the concrete followed
author's post. -/
theorem candidateMatch_eligibility_wit :
    (cexPostC3.archived = false ∧ cexPostC3.userId ≠ 1
        ∧ cexPostC3.id ∉ cexProfC3.viewedPosts
        ∧ cexPostC3.userId ∈ cexProfC3.following)
      ∧ V1.candidateMatch 1 cexProfC3 cexEnvC3.now cexPostC3 = true :=
  ⟨⟨by decide, by decide, by decide, by decide⟩,
    candidateMatch_eligibility.2.2.1 1 cexProfC3 cexEnvC3.now cexPostC3
      (by decide) (by decide) (by decide) (by decide)⟩

theorem V2adfGo_map_post {σ : Type} [LinearOrderedField σ] :
    ∀ (n : ℕ) (l : List (PostScore σ)) (A T : List ℕ) (G : List String),
      (V2.adfGo n l A T G).map PostScore.post =
        (l.take n).map PostScore.post := by
  intro n l
  induction l generalizing n with
  | nil => intro A T G; simp [V2.adfGo]
  | cons e rest ih =>
    intro A T G
    by_cases hn : n = 0
    · subst hn; simp [V2.adfGo]
    · obtain ⟨m, rfl⟩ := Nat.exists_eq_succ_of_ne_zero hn
      rw [V2.adfGo, if_neg hn, List.take_succ_cons]
      simp only [List.map_cons, ih]
      rfl

theorem V1adfGo_map_post {σ : Type} [LinearOrderedField σ] :
    ∀ (n : ℕ) (l : List (PostScore σ)) (A T : List ℕ) (G : List String),
      (V1.adfGo n l A T G).map PostScore.post =
        (l.take n).map PostScore.post := by
  intro n l
  induction l generalizing n with
  | nil => intro A T G; simp [V1.adfGo]
  | cons e rest ih =>
    intro A T G
    by_cases hn : n = 0
    · subst hn; simp [V1.adfGo]
    · obtain ⟨m, rfl⟩ := Nat.exists_eq_succ_of_ne_zero hn
      rw [V1.adfGo, if_neg hn, List.take_succ_cons]
      simp only [List.map_cons, ih]
      rfl

theorem V2adfGo_rel {σ : Type} [LinearOrderedField σ] :
    ∀ (n : ℕ) (l : List (PostScore σ)) (A T : List ℕ) (G : List String),
      List.Forall₂ scoreRel (V2.adfGo n l A T G) (l.take n) := by
  intro n l
  induction l generalizing n with
  | nil =>
    intro A T G
    rw [List.take_nil]
    simp only [V2.adfGo]
    exact List.Forall₂.nil
  | cons e rest ih =>
    intro A T G
    by_cases hn : n = 0
    · subst hn
      simp only [V2.adfGo, if_pos rfl, List.take_zero]
      exact List.Forall₂.nil
    · obtain ⟨m, rfl⟩ := Nat.exists_eq_succ_of_ne_zero hn
      rw [V2.adfGo, if_neg hn, List.take_succ_cons]
      refine List.Forall₂.cons ⟨rfl, rfl, ?_⟩ (ih m _ _ _)
      by_cases hA : e.post.userId ∈ A <;> rcases ht : e.post.tribeId with _ | t
      · simp [hA, ht]
      · by_cases hT : t ∈ T <;> simp [hA, ht, hT]
      · simp [hA, ht]
      · by_cases hT : t ∈ T <;> simp [hA, ht, hT]

theorem V1adfGo_rel {σ : Type} [LinearOrderedField σ] :
    ∀ (n : ℕ) (l : List (PostScore σ)) (A T : List ℕ) (G : List String),
      List.Forall₂ scoreRel (V1.adfGo n l A T G) (l.take n) := by
  intro n l
  induction l generalizing n with
  | nil =>
    intro A T G
    rw [List.take_nil]
    simp only [V1.adfGo]
    exact List.Forall₂.nil
  | cons e rest ih =>
    intro A T G
    by_cases hn : n = 0
    · subst hn
      simp only [V1.adfGo, if_pos rfl, List.take_zero]
      exact List.Forall₂.nil
    · obtain ⟨m, rfl⟩ := Nat.exists_eq_succ_of_ne_zero hn
      rw [V1.adfGo, if_neg hn, List.take_succ_cons]
      refine List.Forall₂.cons ⟨rfl, rfl, ?_⟩ (ih m _ _ _)
      by_cases hA : e.post.userId ∈ A ∧ 2 < A.length <;>
        rcases ht : e.post.tribeId with _ | t
      · simp [hA, ht]
      · by_cases hT : t ∈ T ∧ 3 < T.length <;> simp [hA, ht, hT]
      · simp [hA, ht]
      · by_cases hT : t ∈ T ∧ 3 < T.length <;> simp [hA, ht, hT]

theorem sortByScoreDesc_perm {σ : Type} [LinearOrderedField σ]
    (l : List (PostScore σ)) : List.Perm (sortByScoreDesc l) l :=
  List.perm_insertionSort _ l

theorem sortByScoreDesc_length {σ : Type} [LinearOrderedField σ]
    (l : List (PostScore σ)) : (sortByScoreDesc l).length = l.length :=
  (sortByScoreDesc_perm l).length_eq

theorem take_append_of_bounds {α : Type} (x y : List α) (n : ℕ)
    (hx : x.length ≤ n) (hy : x.length < n → y = []) :
    (x ++ y).take n = x := by
  rw [List.take_append_eq_append_take, List.take_of_length_le hx]
  rcases Nat.lt_or_ge x.length n with h | h
  · rw [hy h]
    simp
  · have h0 : n - x.length = 0 := by omega
    rw [h0]
    simp

theorem V2adfGo_length {σ : Type} [LinearOrderedField σ] (n : ℕ)
    (l : List (PostScore σ)) (A T : List ℕ) (G : List String) :
    (V2.adfGo n l A T G).length = (l.take n).length := by
  have h := congrArg List.length (V2adfGo_map_post n l A T G)
  simpa using h

theorem V1adfGo_length {σ : Type} [LinearOrderedField σ] (n : ℕ)
    (l : List (PostScore σ)) (A T : List ℕ) (G : List String) :
    (V1.adfGo n l A T G).length = (l.take n).length := by
  have h := congrArg List.length (V1adfGo_map_post n l A T G)
  simpa using h

/-- C7: the claim fails as stated: when the same content id occurs in two
scored entries, the Diversity Filter keeps both (it never de-duplicates
by id), so its output carries a duplicate content id.  The length bound
does hold. -/
theorem applyDiversityFilters_duplicate_cex :
    (V2.applyDiversityFilters [dupEntryA, dupEntryB] 2).map
        (fun e => e.post.id) = [21, 21]
      ∧ ¬ ((V2.applyDiversityFilters [dupEntryA, dupEntryB] 2).map
          (fun e => e.post.id)).Nodup := by
  have h1 : (V2.applyDiversityFilters [dupEntryA, dupEntryB] 2).map
      (fun e => e.post.id) = [21, 21] := by
    norm_num [V2.applyDiversityFilters, V2.adfGo, sortByScoreDesc,
      List.insertionSort, List.orderedInsert, insertNew, dupEntryA,
      dupEntryB, dupPost]
  refine ⟨h1, ?_⟩
  rw [h1]
  decide

/-- C7 (amended): in both variants the Diversity Filter's output has
length at most `limit` for *every* input list; and whenever the input
has no duplicate content ids the output has none either (the filter
passes entries through without de-duplicating by id). -/
theorem applyDiversityFilters_length_nodup {σ : Type} [LinearOrderedField σ]
    (l : List (PostScore σ)) (limit : ℕ) :
    (V2.applyDiversityFilters l limit).length ≤ limit
      ∧ (V1.applyDiversityFilters l limit).length ≤ limit
      ∧ ((l.map (fun e => e.post.id)).Nodup →
          ((V2.applyDiversityFilters l limit).map (fun e => e.post.id)).Nodup
            ∧ ((V1.applyDiversityFilters l limit).map
                (fun e => e.post.id)).Nodup) := by
  refine ⟨?_, ?_, ?_⟩
  · rw [V2.applyDiversityFilters, sortByScoreDesc_length, V2adfGo_length]
    exact le_trans (le_of_eq (List.length_take _ _)) (Nat.min_le_left _ _)
  · rw [V1.applyDiversityFilters, sortByScoreDesc_length, V1adfGo_length]
    exact le_trans (le_of_eq (List.length_take _ _)) (Nat.min_le_left _ _)
  · intro h
    have hs : ((sortByScoreDesc l).map (fun e => e.post.id)).Nodup :=
      h.perm ((sortByScoreDesc_perm l).symm.map _)
    have htake : (((sortByScoreDesc l).take limit).map
        (fun e => e.post.id)).Nodup := by
      rw [List.map_take]
      exact hs.sublist (((sortByScoreDesc l).map _).take_sublist _)
    constructor
    · have heq : (V2.adfGo limit (sortByScoreDesc l) [] [] []).map
          (fun e => e.post.id) =
          ((sortByScoreDesc l).take limit).map (fun e => e.post.id) := by
        have h2 := congrArg (List.map Post.id)
          (V2adfGo_map_post limit (sortByScoreDesc l) [] [] [])
        simpa [List.map_map, Function.comp] using h2
      have hnd : ((V2.adfGo limit (sortByScoreDesc l) [] [] []).map
          (fun e => e.post.id)).Nodup := heq ▸ htake
      rw [V2.applyDiversityFilters]
      exact hnd.perm ((sortByScoreDesc_perm _).symm.map _)
    · have heq : (V1.adfGo limit (sortByScoreDesc l) [] [] []).map
          (fun e => e.post.id) =
          ((sortByScoreDesc l).take limit).map (fun e => e.post.id) := by
        have h2 := congrArg (List.map Post.id)
          (V1adfGo_map_post limit (sortByScoreDesc l) [] [] [])
        simpa [List.map_map, Function.comp] using h2
      have hnd : ((V1.adfGo limit (sortByScoreDesc l) [] [] []).map
          (fun e => e.post.id)).Nodup := heq ▸ htake
      rw [V1.applyDiversityFilters]
      exact hnd.perm ((sortByScoreDesc_perm _).symm.map _)

/-- C7 witness: two distinct-id entries through both variants, with the
no-duplicates premise discharged concretely. -/
theorem applyDiversityFilters_length_nodup_wit :
    ([witEntryA, witEntryB].map (fun e => e.post.id)).Nodup
      ∧ ((V2.applyDiversityFilters [witEntryA, witEntryB] 2).length ≤ 2
          ∧ (V1.applyDiversityFilters [witEntryA, witEntryB] 2).length ≤ 2
          ∧ (((V2.applyDiversityFilters [witEntryA, witEntryB] 2).map
                (fun e => e.post.id)).Nodup
              ∧ ((V1.applyDiversityFilters [witEntryA, witEntryB] 2).map
                  (fun e => e.post.id)).Nodup)) := by
  have h := applyDiversityFilters_length_nodup (σ := ℚ)
    [witEntryA, witEntryB] 2
  exact ⟨by decide, h.1, h.2.1, h.2.2 (by decide)⟩

/-- C10: `applyDiversityFilters` sorts its argument array in place and
rescales the walked prefix: positionwise against the score-sorted input,
every entry of the post-call array keeps its post and reasons and has its
score multiplied by exactly one of `1`, `0.7`, `0.8`, `0.7 * 0.8`; the
returned list is the re-sort of the walked prefix of that array.  This
holds in both variants. -/
theorem applyDiversityFilters_frame {σ : Type} [LinearOrderedField σ]
    (l : List (PostScore σ)) (limit : ℕ) :
    List.Forall₂ scoreRel (V2.applyDiversityFiltersArray l limit)
        (sortByScoreDesc l)
      ∧ List.Forall₂ scoreRel (V1.applyDiversityFiltersArray l limit)
        (sortByScoreDesc l)
      ∧ V2.applyDiversityFilters l limit =
          sortByScoreDesc ((V2.applyDiversityFiltersArray l limit).take limit)
      ∧ V1.applyDiversityFilters l limit =
          sortByScoreDesc
            ((V1.applyDiversityFiltersArray l limit).take limit) := by
  refine ⟨?_, ?_, ?_, ?_⟩
  · simp only [V2.applyDiversityFiltersArray]
    conv_rhs => rw [← List.take_append_drop limit (sortByScoreDesc l)]
    exact List.rel_append (V2adfGo_rel limit _ [] [] [])
      (List.forall₂_same.mpr fun e _ => ⟨rfl, rfl, Or.inl rfl⟩)
  · simp only [V1.applyDiversityFiltersArray]
    conv_rhs => rw [← List.take_append_drop limit (sortByScoreDesc l)]
    exact List.rel_append (V1adfGo_rel limit _ [] [] [])
      (List.forall₂_same.mpr fun e _ => ⟨rfl, rfl, Or.inl rfl⟩)
  · simp only [V2.applyDiversityFilters, V2.applyDiversityFiltersArray]
    have hx : (V2.adfGo limit (sortByScoreDesc l) [] [] []).length ≤ limit := by
      rw [V2adfGo_length, List.length_take]
      exact Nat.min_le_left _ _
    rw [take_append_of_bounds _ _ _ hx]
    intro hlt
    rw [V2adfGo_length, List.length_take] at hlt
    exact List.drop_eq_nil_of_le (by omega)
  · simp only [V1.applyDiversityFilters, V1.applyDiversityFiltersArray]
    have hx : (V1.adfGo limit (sortByScoreDesc l) [] [] []).length ≤ limit := by
      rw [V1adfGo_length, List.length_take]
      exact Nat.min_le_left _ _
    rw [take_append_of_bounds _ _ _ hx]
    intro hlt
    rw [V1adfGo_length, List.length_take] at hlt
    exact List.drop_eq_nil_of_le (by omega)

theorem interestOf_mem_of_pos {prof : UserProfile} {t : String}
    (h : 0 < interestOf prof t) :
    interestOf prof t ∈ prof.interests.map Prod.snd := by
  rw [interestOf] at h ⊢
  cases hf : prof.interests.find? (fun kv => kv.1 == t) with
  | none =>
    rw [hf] at h
    simp at h
  | some kv =>
    simp only [Option.map_some', Option.getD_some]
    exact List.mem_map_of_mem Prod.snd (List.mem_of_find?_eq_some hf)

theorem totalInterestMass_pos {prof : UserProfile}
    (hw : ∀ w ∈ prof.interests.map Prod.snd, 0 ≤ w) {t : String}
    (h : 0 < interestOf prof t) : 0 < totalInterestMass prof := by
  rw [totalInterestMass]
  exact lt_of_lt_of_le h (mem_le_sum_nonneg hw (interestOf_mem_of_pos h))

theorem interestTermChecked_eq (prof : UserProfile) (p : Post)
    (hw : ∀ w ∈ prof.interests.map Prod.snd, 0 ≤ w) :
    interestTermChecked prof p = some (interestTerm prof p) := by
  cases hk : p.keywords with
  | none => simp [interestTermChecked, interestTerm, hk]
  | some ks =>
    by_cases hl : ks.length = 0
    · simp [interestTermChecked, interestTerm, hk, hl]
    · simp only [interestTermChecked, interestTerm, hk, if_neg hl]
      have main : ∀ (ts : List String) (s : ℝ),
          ts.foldl (fun acc t =>
            match acc with
            | none => none
            | some s' =>
              let w := interestOf prof t
              if 0 < w then
                if totalInterestMass prof = 0 then none
                else some (s' + w / totalInterestMass prof * 15)
              else some s') (some s) =
          some (ts.foldl (fun s' t =>
            let w := interestOf prof t
            if 0 < w then s' + w / totalInterestMass prof * 15 else s') s) := by
        intro ts
        induction ts with
        | nil => intro s; rfl
        | cons t ts' ih =>
          intro s
          rw [List.foldl_cons, List.foldl_cons]
          show List.foldl _
              (if 0 < interestOf prof t then
                if totalInterestMass prof = 0 then none
                else some (s + interestOf prof t / totalInterestMass prof * 15)
              else some s) ts' =
            some (List.foldl _
              (if 0 < interestOf prof t then
                s + interestOf prof t / totalInterestMass prof * 15
              else s) ts')
          by_cases hpos : 0 < interestOf prof t
          · have hmass : totalInterestMass prof ≠ 0 :=
              ne_of_gt (totalInterestMass_pos hw hpos)
            rw [if_pos hpos, if_pos hpos, if_neg hmass]
            exact ih _
          · rw [if_neg hpos, if_neg hpos]
            exact ih _
      exact main ks 0

/-- C6: the scorer's only division is the interest-match normalization,
taken only when the matched keyword's own weight is positive; under
non-negative interest weights that forces a positive total interest mass,
so the checked evaluation (which returns `none` exactly where JS would
produce a non-finite number) returns the very score `scorePostsAdvanced`
computes. -/
theorem scorePostsAdvanced_denominator_guarded (now : ℤ)
    (prof : UserProfile) (p : Post)
    (hw : ∀ w ∈ prof.interests.map Prod.snd, 0 ≤ w) :
    scoreCheckedOne now prof p = some (scoreOne now prof p).score
      ∧ (∀ t, 0 < interestOf prof t → 0 < totalInterestMass prof) := by
  constructor
  · rw [scoreCheckedOne, interestTermChecked_eq prof p hw]
    rfl
  · intro t ht
    exact totalInterestMass_pos hw ht

/-- C6 witness: a profile with one positive interest weight and a post
carrying the matching keyword. -/
theorem scorePostsAdvanced_denominator_guarded_wit :
    (∀ w ∈ witProfC6.interests.map Prod.snd, 0 ≤ w)
      ∧ (scoreCheckedOne 0 witProfC6 witPostC6 =
            some (scoreOne 0 witProfC6 witPostC6).score
          ∧ ∀ t, 0 < interestOf witProfC6 t →
              0 < totalInterestMass witProfC6) := by
  refine ⟨?_, scorePostsAdvanced_denominator_guarded 0 witProfC6 witPostC6 ?_⟩
    <;> norm_num [witProfC6]

/-- C8: the score is monotonically non-decreasing in like count and
comment count, all other candidate fields and the profile held equal:
only the logarithmic engagement term depends on them, and `Real.log` is
monotone. -/
theorem scoreOne_monotone_engagement (now : ℤ) (prof : UserProfile)
    (p : Post) (l1 c1 l2 c2 : ℕ) (hl : l2 ≤ l1) (hc : c2 ≤ c1) :
    (scoreOne now prof { p with likes := l2, comments := c2 }).score ≤
      (scoreOne now prof { p with likes := l1, comments := c1 }).score := by
  have e_eng : engagementScore { p with likes := l2, comments := c2 } ≤
      engagementScore { p with likes := l1, comments := c1 } := by
    simp only [engagementScore]
    have hl' : (l2 : ℝ) ≤ (l1 : ℝ) := Nat.cast_le.mpr hl
    have hc' : (c2 : ℝ) ≤ (c1 : ℝ) := Nat.cast_le.mpr hc
    have hlog1 : Real.log (1 + (l2 : ℝ)) ≤ Real.log (1 + (l1 : ℝ)) :=
      Real.log_le_log (by positivity) (by linarith)
    have hlog2 : Real.log (1 + (c2 : ℝ)) ≤ Real.log (1 + (c1 : ℝ)) :=
      Real.log_le_log (by positivity) (by linarith)
    have t1 := mul_le_mul_of_nonneg_right hlog1 (by norm_num : (0:ℝ) ≤ 2)
    have t2 := mul_le_mul_of_nonneg_right hlog2 (by norm_num : (0:ℝ) ≤ 3)
    linarith
  have h2 : (scoreOne now prof { p with likes := l2, comments := c2 }).score =
      timeScore now p + interestTerm prof p
        + (if followedB prof p then (8:ℝ) else 0)
        + engagementScore { p with likes := l2, comments := c2 }
        + (if qualityB p then (2:ℝ) else 0)
        + (if p.tribeId.isSome then (1:ℝ) else 0)
        + interactionOf prof p.id * 2 := rfl
  have h1 : (scoreOne now prof { p with likes := l1, comments := c1 }).score =
      timeScore now p + interestTerm prof p
        + (if followedB prof p then (8:ℝ) else 0)
        + engagementScore { p with likes := l1, comments := c1 }
        + (if qualityB p then (2:ℝ) else 0)
        + (if p.tribeId.isSome then (1:ℝ) else 0)
        + interactionOf prof p.id * 2 := rfl
  rw [h1, h2]
  linarith

/-- C8 witness: raising likes from 1 to 3 and comments from 2 to 5 does
not decrease the concrete score. -/
theorem scoreOne_monotone_engagement_wit :
    ((1 : ℕ) ≤ 3 ∧ (2 : ℕ) ≤ 5)
      ∧ (scoreOne 0 emptyProfile
            { witPostC8 with likes := 1, comments := 2 }).score ≤
          (scoreOne 0 emptyProfile
            { witPostC8 with likes := 3, comments := 5 }).score :=
  ⟨⟨by decide, by decide⟩,
    scoreOne_monotone_engagement 0 emptyProfile witPostC8 3 5 1 2
      (by decide) (by decide)⟩

theorem except_pure {ε α : Type} (a : α) :
    (pure a : Except ε α) = .ok a := rfl

/-- C5: the claim is right and the code is wrong.  When the cache client
is down (every `get`/`set` throws) the orchestrator's `catch` branch calls
`getFallbackPosts`, whose own cache read sits *before* its `try`; that
read throws again and the error escapes to the caller, so the call
rejects even though the post store is fully reachable — in both variants. -/
theorem getRecommendedPosts_cache_down_error (env : Env)
    (entries : List (String × List Post)) (u limit : ℕ) :
    V2.getRecommendedPosts env ⟨entries, false⟩ u limit = .error ()
      ∧ V1.getRecommendedPosts env ⟨entries, false⟩ u limit = .error () :=
  ⟨rfl, rfl⟩

theorem V2fallback_fresh (env : Env) (entries : List (String × List Post))
    (limit : ℕ) (u : ℕ)
    (hfb : cacheLookup entries (fbKey limit) = none) :
    V2.getFallbackPosts env ⟨entries, true⟩ limit (some u) =
      .ok (basicDiversityFilter
          (assembleFallback env limit (some u)
            (env.profileOf u).viewedPosts) limit,
        ⟨(fbKey limit,
            basicDiversityFilter
              (assembleFallback env limit (some u)
                (env.profileOf u).viewedPosts) limit) :: entries, true⟩) := by
  rw [V2.getFallbackPosts, cacheGet_up, hfb]
  rfl

theorem scorePostsAdvanced_map_post (now : ℤ) (posts : List Post)
    (prof : UserProfile) :
    (scorePostsAdvanced now posts prof).map PostScore.post = posts := by
  have hcomp : (PostScore.post ∘ scoreOne now prof) = fun p => p := rfl
  simp [scorePostsAdvanced, List.map_map, hcomp]

theorem V2adf_post_mem {σ : Type} [LinearOrderedField σ]
    {l : List (PostScore σ)} {limit : ℕ} {e : PostScore σ}
    (h : e ∈ V2.applyDiversityFilters l limit) :
    e.post ∈ l.map PostScore.post := by
  rw [V2.applyDiversityFilters, sortByScoreDesc, List.mem_insertionSort] at h
  have h2 : e.post ∈ (V2.adfGo limit (sortByScoreDesc l) [] [] []).map
      PostScore.post := List.mem_map_of_mem _ h
  rw [V2adfGo_map_post, List.map_take] at h2
  have h3 := List.take_subset _ _ h2
  exact ((sortByScoreDesc_perm l).map PostScore.post).mem_iff.mp h3

/-- C1 (amended): on a fresh computation — when neither the per-user
result key nor the shared `fallback_posts:{limit}` key is populated — the
live variant's `getRecommendedPosts` never returns a post that is
archived, authored by the requester, or in the requester's viewed set.
(The counterexample shows the claim fails once the shared fallback entry
is populated by another user's request.) -/
theorem getRecommendedPosts_fresh_exclusions (env : Env) (c : CacheState)
    (u limit : ℕ)
    (hrec : cacheLookup c.entries (recKey u limit) = none)
    (hfb : cacheLookup c.entries (fbKey limit) = none)
    (r : List Post) (c2 : CacheState)
    (h : V2.getRecommendedPosts env c u limit = .ok (r, c2)) :
    ∀ q ∈ r, q.archived = false ∧ q.userId ≠ u
      ∧ q.id ∉ (env.profileOf u).viewedPosts := by
  obtain ⟨entries, ok⟩ := c
  have hfbinv : ∀ q ∈ basicDiversityFilter
      (assembleFallback env limit (some u) (env.profileOf u).viewedPosts)
      limit,
      q.archived = false ∧ q.userId ≠ u
        ∧ q.id ∉ (env.profileOf u).viewedPosts := by
    intro q hq
    obtain ⟨-, hb, hu, hx⟩ := assembleFallback_mem (bdfGo_sub _ _ _ q hq)
    exact ⟨hb, excludeUserB_some hu, hx⟩
  cases ok with
  | false =>
    rw [show V2.getRecommendedPosts env ⟨entries, false⟩ u limit = .error ()
        from rfl] at h
    cases h
  | true =>
    rw [V2.getRecommendedPosts] at h
    simp only [cacheGet_up, hrec, except_bind_ok, buildUserProfile_up] at h
    by_cases hemp :
        (V2.getCandidatePosts env u (env.profileOf u)).isEmpty = true
    · simp only [if_pos hemp, V2fallback_fresh env entries limit u hfb,
        except_bind_ok, cacheSet_up, except_pure] at h
      simp only [Except.ok.injEq, Prod.mk.injEq] at h
      obtain ⟨h1, -⟩ := h
      subst h1
      exact hfbinv
    · simp only [if_neg hemp, except_bind_ok, cacheSet_up, except_pure] at h
      simp only [Except.ok.injEq, Prod.mk.injEq] at h
      obtain ⟨h1, -⟩ := h
      subst h1
      intro q hq
      obtain ⟨e, he, rfl⟩ := List.mem_map.mp hq
      have hp := V2adf_post_mem (List.take_subset _ _ he)
      rw [scorePostsAdvanced_map_post] at hp
      obtain ⟨hb, hu, hv, -, -⟩ := V2candidate_mem hp
      exact ⟨hb, hu, hv⟩

/-- C1: the claim fails through the shared fallback cache: user 5's
request (empty cache, store holding only user 7's post) takes the
fallback cascade, stores the resulting list under the user-independent
key `fallback_posts:1`, and user 7's subsequent request — its own result
key still empty, its candidate pool empty — is served that shared entry
and receives a post authored by user 7 themself. -/
theorem fallbackCache_cross_user_leak_cex :
    V2.getRecommendedPosts cexEnvA cacheEmpty 5 1 =
        .ok ([cexPostA], cexCacheMidA)
      ∧ (V2.getRecommendedPosts cexEnvA cexCacheMidA 7 1).map Prod.fst =
        .ok [cexPostA]
      ∧ cexPostA.userId = 7 := by
  refine ⟨?_, ?_, rfl⟩ <;> rfl

/-- C1 witness: a fresh call (both cache keys empty) for user 5. -/
theorem getRecommendedPosts_fresh_exclusions_wit :
    (cacheLookup cacheEmpty.entries (recKey 5 1) = none
        ∧ cacheLookup cacheEmpty.entries (fbKey 1) = none)
      ∧ (cexPostA.archived = false ∧ cexPostA.userId ≠ 5
          ∧ cexPostA.id ∉ (cexEnvA.profileOf 5).viewedPosts) :=
  ⟨⟨rfl, rfl⟩,
    getRecommendedPosts_fresh_exclusions cexEnvA cacheEmpty 5 1 rfl rfl
      [cexPostA] cexCacheMidA (by rfl) cexPostA (by decide)⟩

theorem pickIndex_lt_length :
    ∀ {ws : List ℚ} {r : ℚ} {i : ℕ},
      pickIndex r ws = some i → i < ws.length := by
  intro ws
  induction ws with
  | nil => intro r i h; simp [pickIndex] at h
  | cons w t ih =>
    intro r i h
    rw [pickIndex] at h
    split at h
    · cases h
      simp
    · obtain ⟨j, hj, rfl⟩ := Option.map_eq_some'.mp h
      simpa using Nat.succ_lt_succ (ih hj)

theorem pickIndex_isSome :
    ∀ (ws : List ℚ) (r : ℚ), ws ≠ [] → r ≤ ws.sum →
      ∃ i, pickIndex r ws = some i := by
  intro ws
  induction ws with
  | nil => intro r h _; exact absurd rfl h
  | cons w t ih =>
    intro r _ hr
    rw [List.sum_cons] at hr
    by_cases hc : r - w ≤ 0
    · exact ⟨0, by rw [pickIndex, if_pos hc]⟩
    · cases t with
      | nil =>
        exfalso
        simp only [List.sum_nil] at hr
        exact hc (by linarith)
      | cons a t' =>
        obtain ⟨i, hi⟩ := ih (r - w) (by simp) (by linarith)
        exact ⟨i + 1, by rw [pickIndex, if_neg hc, hi]; rfl⟩

theorem shuffleGo_some_perm {α : Type} (rnd : ℕ → ℚ)
    (hrnd : ∀ n, 0 ≤ rnd n ∧ rnd n < 1) :
    ∀ (fuel : ℕ) (wtd : List (α × ℚ)) (k : ℕ),
      wtd.length ≤ fuel → (∀ w ∈ wtd.map Prod.snd, 1 ≤ w) →
      ∃ out, shuffleGo rnd fuel k wtd = some out
        ∧ List.Perm out (wtd.map Prod.fst) := by
  intro fuel
  induction fuel with
  | zero =>
    intro wtd k hlen _
    rw [Nat.le_zero, List.length_eq_zero] at hlen
    subst hlen
    exact ⟨[], rfl, List.Perm.nil⟩
  | succ f ih =>
    intro wtd k hlen hw
    cases wtd with
    | nil => exact ⟨[], rfl, List.Perm.nil⟩
    | cons w ws =>
      have hw1 : (1 : ℚ) ≤ w.2 := hw w.2 (by simp)
      have hnonneg : ∀ x ∈ (w :: ws).map Prod.snd, (0 : ℚ) ≤ x :=
        fun x hx => le_trans zero_le_one (hw x hx)
      have hsum : (1 : ℚ) ≤ ((w :: ws).map Prod.snd).sum := by
        have hm := mem_le_sum_nonneg hnonneg
          (show w.2 ∈ (w :: ws).map Prod.snd by simp)
        linarith
      have hr0 := (hrnd k).1
      have hr1 := (hrnd k).2
      have hrand : rnd k * ((w :: ws).map Prod.snd).sum ≤
          ((w :: ws).map Prod.snd).sum := by
        nlinarith
      obtain ⟨i, hi⟩ := pickIndex_isSome ((w :: ws).map Prod.snd)
        (rnd k * ((w :: ws).map Prod.snd).sum) (by simp) hrand
      have hilt : i < (w :: ws).length := by
        have hl := pickIndex_lt_length hi
        simpa using hl
      have hget : (w :: ws)[i]? = some (w :: ws)[i] :=
        List.getElem?_eq_getElem hilt
      have herase_len : ((w :: ws).eraseIdx i).length ≤ f := by
        rw [List.length_eraseIdx]
        simp only [if_pos hilt]
        omega
      have hwt' : ∀ x ∈ ((w :: ws).eraseIdx i).map Prod.snd, (1 : ℚ) ≤ x := by
        intro x hx
        obtain ⟨pr, hpr, rfl⟩ := List.mem_map.mp hx
        exact hw _ (List.mem_map_of_mem _
          ((List.eraseIdx_sublist _ i).subset hpr))
      obtain ⟨out, hout, hperm⟩ := ih ((w :: ws).eraseIdx i) (k + 1)
        herase_len hwt'
      refine ⟨(w :: ws)[i].1 :: out, ?_, ?_⟩
      · rw [shuffleGo]
        simp only [hi, hget, hout, Option.map_some']
      · have hsplit : (w :: ws) =
            (w :: ws).take i ++ (w :: ws)[i] :: (w :: ws).drop (i + 1) := by
          conv_lhs => rw [← List.take_append_drop i (w :: ws)]
          rw [List.drop_eq_getElem_cons hilt]
        have h1 : List.Perm ((w :: ws)[i].1 :: out)
            ((w :: ws)[i].1 :: ((w :: ws).eraseIdx i).map Prod.fst) :=
          hperm.cons _
        have h2 : ((w :: ws).eraseIdx i).map Prod.fst =
            ((w :: ws).take i).map Prod.fst
              ++ ((w :: ws).drop (i + 1)).map Prod.fst := by
          rw [List.eraseIdx_eq_take_drop_succ, List.map_append]
        have h3 : (w :: ws).map Prod.fst =
            ((w :: ws).take i).map Prod.fst
              ++ (w :: ws)[i].1 :: ((w :: ws).drop (i + 1)).map Prod.fst := by
          conv_lhs => rw [hsplit]
          rw [List.map_append, List.map_cons]
        rw [h3]
        refine h1.trans ?_
        rw [h2]
        exact List.perm_middle.symm

theorem shuffleWithRelevance_some_perm {α : Type} (cf : α → ℚ)
    (rnd : ℕ → ℚ) (users : List α)
    (hcf : ∀ x ∈ users, 0 ≤ cf x)
    (hrnd : ∀ n, 0 ≤ rnd n ∧ rnd n < 1) :
    ∃ out, shuffleWithRelevance cf rnd users = some out
      ∧ List.Perm out users := by
  have hw : ∀ w ∈ (users.map (fun u => (u, cf u + 1))).map Prod.snd,
      (1 : ℚ) ≤ w := by
    intro w hwm
    rw [List.map_map] at hwm
    obtain ⟨x, hx, rfl⟩ := List.mem_map.mp hwm
    have := hcf x hx
    simp only [Function.comp_apply]
    linarith
  have hlen : (users.map (fun u => (u, cf u + 1))).length ≤ users.length := by
    simp
  obtain ⟨out, hout, hperm⟩ := shuffleGo_some_perm rnd hrnd users.length
    (users.map (fun u => (u, cf u + 1))) 0 hlen hw
  refine ⟨out, hout, ?_⟩
  have hfst : (users.map (fun u => (u, cf u + 1))).map Prod.fst = users := by
    have hid : (Prod.fst ∘ fun u => (u, cf u + 1)) = fun (u : α) => u := rfl
    simp [List.map_map, hid]
  rwa [hfst] at hperm

/-- C9: with non-negative `commonFollowers` and `Math.random()` drawing in
`[0, 1)`, `shuffleWithRelevance` terminates without the `findIndex`
crash (the weighted sampling always selects a valid index, since every
weight is at least 1 and the draw is below the total weight) and its
output is a permutation of its input. -/
theorem shuffleWithRelevance_terminates_perm {α : Type} (cf : α → ℚ)
    (rnd : ℕ → ℚ) (users : List α)
    (hcf : ∀ x ∈ users, 0 ≤ cf x)
    (hrnd : ∀ n, 0 ≤ rnd n ∧ rnd n < 1) :
    ∃ out, shuffleWithRelevance cf rnd users = some out
      ∧ List.Perm out users ∧ out.length = users.length := by
  obtain ⟨out, h1, h2⟩ := shuffleWithRelevance_some_perm cf rnd users hcf hrnd
  exact ⟨out, h1, h2, h2.length_eq⟩

/-- C9 witness: two users with counts 1 and 0 under the constant draw
1/2. -/
theorem shuffleWithRelevance_terminates_perm_wit :
    (∀ x ∈ witRecUsers, 0 ≤ x.commonFollowers)
      ∧ ∃ out, shuffleWithRelevance RecUser.commonFollowers rndHalf
            witRecUsers = some out
          ∧ List.Perm out witRecUsers
          ∧ out.length = witRecUsers.length :=
  ⟨by decide,
    shuffleWithRelevance_terminates_perm RecUser.commonFollowers rndHalf
      witRecUsers (by decide)
      (fun n => ⟨by norm_num [rndHalf], by norm_num [rndHalf]⟩)⟩

theorem annotateUser_user (rows : List GraphRow) (x : MUser) :
    (annotateUser rows x).user = x := rfl

theorem annotateUser_cf (rows : List GraphRow) (x : MUser) :
    (annotateUser rows x).commonFollowers =
      ((((rows.reverse.find? (fun r => r.userId == x.id)).map
        GraphRow.commonFollowersCount).getD 0 : ℕ) : ℚ) := rfl

theorem gatherIds_fst_prop (users : List MUser) (g : GraphStore)
    (u limit : ℕ)
    (h1 : ∀ r ∈ g.tier1 u (3 * limit / 2),
        r.userId ≠ u ∧ r.userId ∉ g.followingIds u)
    (h2 : ∀ (ids : List ℕ) (k : ℕ), ∀ r ∈ g.tier2 u ids k,
        r.userId ≠ u ∧ r.userId ∉ g.followingIds u) :
    ∀ i ∈ (gatherIds users g u limit).1,
      i ≠ u ∧ i ∉ g.followingIds u := by
  have hA : ∀ i ∈ (g.tier1 u (3 * limit / 2)).map GraphRow.userId,
      i ≠ u ∧ i ∉ g.followingIds u := by
    intro i hi
    obtain ⟨row, hrow, rfl⟩ := List.mem_map.mp hi
    exact h1 row hrow
  have hB : ∀ (ids : List ℕ) (k : ℕ),
      ∀ i ∈ (g.tier2 u ids k).map GraphRow.userId,
        i ≠ u ∧ i ∉ g.followingIds u := by
    intro ids k i hi
    obtain ⟨row, hrow, rfl⟩ := List.mem_map.mp hi
    exact h2 ids k row hrow
  have hC : ∀ (s : List ℕ) (k : ℕ),
      ∀ i ∈ ((users.filter (fun x =>
          x.id != u && !(s.contains x.id)
            && !((g.followingIds u).contains x.id))).take k).map MUser.id,
        i ≠ u ∧ i ∉ g.followingIds u := by
    intro s k i hi
    obtain ⟨x, hx, rfl⟩ := List.mem_map.mp hi
    have hx2 := List.take_subset _ _ hx
    have hcond := (List.mem_filter.mp hx2).2
    simp only [Bool.and_eq_true, Bool.not_eq_true', bne_iff_ne, ne_eq]
      at hcond
    exact ⟨hcond.1.1, contains_false_not_mem hcond.2⟩
  intro i hi
  rw [gatherIds] at hi
  by_cases hc1 :
      ((g.tier1 u (3 * limit / 2)).map GraphRow.userId).length < limit
  · simp only [if_pos hc1] at hi
    split at hi
    · rcases List.mem_append.mp hi with hi' | hi'
      · rcases List.mem_append.mp hi' with hi'' | hi''
        · exact hA i hi''
        · exact hB _ _ i hi''
      · exact hC _ _ i hi'
    · rcases List.mem_append.mp hi with hi' | hi'
      · exact hA i hi'
      · exact hB _ _ i hi'
  · simp only [if_neg hc1] at hi
    exact hA i hi

/-- C2: the claim fails in the `catch` branch: when the graph store is
down, the fallback queries random users excluding only the requester
themself, so user 1 — who follows user 2 per their user document — is
recommended user 2. -/
theorem recommendedUsers_catch_includes_followed_cex :
    getRecommendedUsers cexUsersEnv rndZero [] 1 2 =
        some ([⟨cexUserTwo, 0, []⟩], [])
      ∧ (2 : ℕ) ∈ cexUserOne.following
      ∧ cexUserTwo.id = 2 := by
  refine ⟨?_, by decide, rfl⟩
  norm_num [getRecommendedUsers, usersCatch, userCacheLookup, userRecKey,
    cexUsersEnv, cexUserOne, cexUserTwo, rndZero, shuffleWithRelevance,
    shuffleGo, pickIndex]

/-- C2 (amended): on a cache miss with the graph store up, under the
contracts of the Cypher queries (tier 1 and tier 2 rows exclude the
requester and anyone the requester follows, per their `WHERE` clauses),
`getRecommendedUsers` never returns the requester nor a followed user;
the `catch`-branch fallback taken when the graph store is down excludes
only the requester. -/
theorem getRecommendedUsers_main_exclusions (env : UsersEnv)
    (g : GraphStore) (rnd : ℕ → ℚ) (c : UserCache) (u limit : ℕ)
    (hgraph : env.graph = some g)
    (hmiss : userCacheLookup c (userRecKey u limit) = none)
    (h1 : ∀ r ∈ g.tier1 u (3 * limit / 2),
        r.userId ≠ u ∧ r.userId ∉ g.followingIds u)
    (h2 : ∀ (ids : List ℕ) (k : ℕ), ∀ r ∈ g.tier2 u ids k,
        r.userId ≠ u ∧ r.userId ∉ g.followingIds u)
    (hrnd : ∀ n, 0 ≤ rnd n ∧ rnd n < 1)
    (out : List RecUser) (c2 : UserCache)
    (h : getRecommendedUsers env rnd c u limit = some (out, c2)) :
    ∀ x ∈ out, x.user.id ≠ u ∧ x.user.id ∉ g.followingIds u := by
  simp only [getRecommendedUsers, hmiss, hgraph] at h
  have hcf : ∀ x ∈ List.insertionSort
      (fun a b => b.commonFollowers ≤ a.commonFollowers)
      ((env.users.filter (fun x =>
        (gatherIds env.users g u limit).1.contains x.id)).map
          (annotateUser (gatherIds env.users g u limit).2)),
      0 ≤ x.commonFollowers := by
    intro x hx
    rw [List.mem_insertionSort] at hx
    obtain ⟨xu, -, rfl⟩ := List.mem_map.mp hx
    rw [annotateUser_cf]
    exact Nat.cast_nonneg _
  obtain ⟨sh, hsh, hperm⟩ := shuffleWithRelevance_some_perm
    RecUser.commonFollowers rnd
    (List.insertionSort (fun a b => b.commonFollowers ≤ a.commonFollowers)
      ((env.users.filter (fun x =>
        (gatherIds env.users g u limit).1.contains x.id)).map
          (annotateUser (gatherIds env.users g u limit).2))) hcf hrnd
  rw [hsh] at h
  simp only [Option.some.injEq, Prod.mk.injEq] at h
  obtain ⟨h3, -⟩ := h
  subst h3
  intro x hx
  have hx2 := hperm.mem_iff.mp hx
  rw [List.mem_insertionSort] at hx2
  obtain ⟨xu, hxu, rfl⟩ := List.mem_map.mp hx2
  have hid : xu.id ∈ (gatherIds env.users g u limit).1 := by
    have hcond := (List.mem_filter.mp hxu).2
    exact contains_true_mem hcond
  rw [annotateUser_user]
  exact gatherIds_fst_prop env.users g u limit h1 h2 xu.id hid

/-- C2 witness: a healthy graph with no rows forces the tier-3 random
fill; the single recommended user is neither the requester nor followed. -/
theorem getRecommendedUsers_main_exclusions_wit :
    (witUsersEnv.graph = some witGraph
        ∧ userCacheLookup [] (userRecKey 1 1) = none)
      ∧ ((⟨⟨4, []⟩, 0, []⟩ : RecUser).user.id ≠ 1
          ∧ (⟨⟨4, []⟩, 0, []⟩ : RecUser).user.id ∉ witGraph.followingIds 1) :=
  ⟨⟨rfl, rfl⟩,
    getRecommendedUsers_main_exclusions witUsersEnv witGraph rndHalf [] 1 1
      rfl rfl (fun r hr => absurd hr (by simp [witGraph]))
      (fun ids k r hr => absurd hr (by simp [witGraph]))
      (fun n => ⟨by norm_num [rndHalf], by norm_num [rndHalf]⟩)
      [⟨⟨4, []⟩, 0, []⟩] [(userRecKey 1 1, [⟨⟨4, []⟩, 0, []⟩])]
      (by norm_num [getRecommendedUsers, userCacheLookup, witUsersEnv,
        witGraph, gatherIds, annotateUser, rndHalf,
        shuffleWithRelevance, shuffleGo, pickIndex, List.insertionSort,
        List.orderedInsert])
      (⟨⟨4, []⟩, 0, []⟩ : RecUser) (by simp)⟩
